import Mathlib

/-!
Verification of the event emitter in src/src/BaseEventEmitter.js.

The emitter state is passed explicitly.  Event types are strings, emitted
arguments are lists of strings, listener functions and contexts are
identified by natural-number ids.  A listener's behaviour during its
invocation is modelled by a small language of effects (the operations the
JavaScript code lets a handler perform on the emitter while it runs);
a plain listener such as a test callback has an empty effect list.

EmitterSubscription and EventSubscriptionVendor are required by
BaseEventEmitter.js but their files are not part of src/; their behaviour
is modelled from the spec (sections 4.1 and 4.2): a per-type ordered
collection of slots, removal marks a slot absent (a tombstone) instead of
compacting, slot keys are the insertion indices and are never reused.
-/

namespace Emitter

/-- One observable listener invocation: the listener function id, the
receiver it was applied against, and the argument list it received.
Models one execution of the apply in __emitToSubscription (or of the
inner apply inside the once wrapper). -/
structure Call where
  lid : Nat
  receiver : Option Nat
  args : List String
deriving DecidableEq

/-- Ghost record of one dispatch performed by the emit loop: the event
type being emitted, the slot key dispatched, the dispatched subscription's
listener id and context, and the data arguments.  It logs which iteration
of the loop in emit reached __emitToSubscription; it has no influence on
control flow. -/
structure FiredEntry where
  etype : String
  key : Nat
  lid : Nat
  receiver : Option Nat
  args : List String
deriving DecidableEq

/-- Effects a listener body may perform on the emitter while it is being
invoked, mirroring the operations the JavaScript code exposes to a
handler.  addL is emitter.addListener, removeSlot is subscription.remove()
(the vendor locates the slot by the subscription's event type and key),
removeCurrent is emitter.removeCurrentListener(), callOriginal is the
apply of a captured original listener (as in the once wrapper), throwErr
is a listener throwing. -/
inductive Effect where
  | addL (etype : String) (lid : Nat) (body : List Effect) (context : Option Nat)
  | removeSlot (etype : String) (key : Nat)
  | removeCurrent
  | callOriginal (lid : Nat) (context : Option Nat)
  | throwErr (msg : String)

/-- A registered subscription: the vendor records its event type and slot
key (EventSubscriptionVendor.addSubscription sets subscription.eventType
and subscription.key); it carries the listener (id and behaviour) and the
optional context, as EmitterSubscription does. -/
structure Subscription where
  eventType : String
  key : Nat
  lid : Nat
  body : List Effect
  context : Option Nat

/-- The emitter's state: the vendor's map from event type to its ordered
slot collection (none for a type whose collection was never created;
a slot holds none once removed), the _currentSubscription field, the log
of listener invocations performed so far, and the ghost dispatch log. -/
structure EmState where
  buckets : String → Option (List (Option Subscription))
  current : Option Subscription
  trace : List Call
  fired : List FiredEntry

/-- A fresh emitter: no collections, _currentSubscription null. -/
def initState : EmState :=
  { buckets := fun _ => none, current := none, trace := [], fired := [] }

/-- The slot collection for a type, or the empty collection. -/
def bucketOf (st : EmState) (t : String) : List (Option Subscription) :=
  (st.buckets t).getD []

/-- Length of the slot collection for a type (0 if never created). -/
def bucketLen (st : EmState) (t : String) : Nat :=
  (bucketOf st t).length

/-- Contents of slot k for type t: none when the type has no collection,
the slot was removed, or k is out of range. -/
def slotAt (st : EmState) (t : String) (k : Nat) : Option Subscription :=
  match st.buckets t with
  | none => none
  | some b => b.getD k none

/-- Modelled from the spec (4.1 addSubscription), wrapped by
BaseEventEmitter.addListener: append a new subscription to the collection
for the type (creating the collection if absent), assigning the next
index as its key; return the updated state and the subscription. -/
def addListener (st : EmState) (t : String) (lid : Nat) (body : List Effect)
    (ctx : Option Nat) : EmState × Subscription :=
  let b := bucketOf st t
  let sub : Subscription := ⟨t, b.length, lid, body, ctx⟩
  ({ st with buckets := fun t2 => if t2 = t then some (b ++ [some sub]) else st.buckets t2 },
   sub)

/-- Modelled from the spec (4.1 removeSubscription, 4.2 remove): mark the
slot for the given event type and key absent; a type with no collection,
an already-removed slot, or an out-of-range key is a silent no-op. -/
def removeSubscription (st : EmState) (t : String) (k : Nat) : EmState :=
  match st.buckets t with
  | none => st
  | some b =>
    { st with buckets := fun t2 => if t2 = t then some (b.set k none) else st.buckets t2 }

/-- BaseEventEmitter.removeCurrentListener: throws (returns the fixed
message) when _currentSubscription is null, otherwise asks the vendor to
remove the current subscription.  The field itself is not cleared. -/
def removeCurrentListener (st : EmState) : EmState × Option String :=
  match st.current with
  | none => (st, some "Not in an emitting cycle; there is no current subscription")
  | some sub => (removeSubscription st sub.eventType sub.key, none)

/-- BaseEventEmitter.listeners: the still-present subscriptions of the
type's collection in order (filter over the sparse collection), or the
empty list when no collection exists. -/
def listeners (st : EmState) (t : String) : List Subscription :=
  match st.buckets t with
  | none => []
  | some b => b.filterMap id

/-- BaseEventEmitter.once: registers a wrapper listener (a fresh function,
identified here by wlid, registered with no context) whose body first
calls removeCurrentListener and then applies the original listener with
the original context and the received arguments. -/
def once (st : EmState) (t : String) (wlid : Nat) (lid : Nat) (ctx : Option Nat) :
    EmState × Subscription :=
  addListener st t wlid [Effect.removeCurrent, Effect.callOriginal lid ctx] none

/-- Run one effect of a listener body against the state; the second
component is some message when the effect threw. -/
def runEffect (st : EmState) (args : List String) : Effect → EmState × Option String
  | Effect.addL t lid body ctx => ((addListener st t lid body ctx).1, none)
  | Effect.removeSlot t k => (removeSubscription st t k, none)
  | Effect.removeCurrent => removeCurrentListener st
  | Effect.callOriginal lid ctx =>
    ({ st with trace := st.trace ++ [⟨lid, ctx, args⟩] }, none)
  | Effect.throwErr m => (st, some m)

/-- Run a listener body in order; a throw stops the body and propagates. -/
def runBody (st : EmState) (args : List String) : List Effect → EmState × Option String
  | [] => (st, none)
  | e :: rest =>
    match runEffect st args e with
    | (st1, none) => runBody st1 args rest
    | (st1, some m) => (st1, some m)

/-- One dispatch of emit's loop body to a live subscription:
_currentSubscription is set to the subscription, then
__emitToSubscription applies subscription.listener with
subscription.context as receiver and the data arguments (the arguments
after the event type — Array.prototype.slice.call(arguments, 2)), which
logs the call and runs the listener's body. -/
def dispatch (st : EmState) (args : List String) (sub : Subscription) :
    EmState × Option String :=
  runBody
    { st with current := some sub, trace := st.trace ++ [⟨sub.lid, sub.context, args⟩] }
    args sub.body

/-- The keys present in a slot collection, in ascending order: what
Object.keys returns for the sparse collection at the start of emit. -/
def liveKeys (b : List (Option Subscription)) : List Nat :=
  (List.range b.length).filter (fun k => (b.getD k none).isSome)

/-- The loop of emit over the snapshotted keys: re-read the slot from the
live state; a removed slot is skipped; a live one is dispatched (the
ghost log records the dispatch).  A throw from a listener stops the loop
and propagates. -/
def emitLoop (t : String) (args : List String) : List Nat → EmState → EmState × Option String
  | [], st => (st, none)
  | k :: ks, st =>
    match slotAt st t k with
    | none => emitLoop t args ks st
    | some sub =>
      match dispatch { st with fired := st.fired ++ [⟨t, k, sub.lid, sub.context, args⟩] }
          args sub with
      | (st1, none) => emitLoop t args ks st1
      | (st1, some m) => (st1, some m)

/-- BaseEventEmitter.emit: if the type has no collection, do nothing;
otherwise snapshot the present keys, run the loop, and after the loop
set _currentSubscription to null.  The assignment to null is not guarded:
when a listener throws, the exception propagates and the field is not
cleared. -/
def emit (st : EmState) (t : String) (args : List String) : EmState × Option String :=
  match st.buckets t with
  | none => (st, none)
  | some b =>
    match emitLoop t args (liveKeys b) st with
    | (st1, none) => ({ st1 with current := none }, none)
    | (st1, some m) => (st1, some m)

/-- Number of logged invocations of the listener with the given id. -/
def countCalls (l : Nat) (tr : List Call) : Nat :=
  (tr.filter (fun c => c.lid == l)).length

/-! Bridging lemmas expressing the operations through bucketOf. -/

theorem slotAt_eq (st : EmState) (t : String) (k : Nat) :
    slotAt st t k = (bucketOf st t).getD k none := by
  unfold slotAt bucketOf
  cases st.buckets t <;> rfl

theorem listeners_eq (st : EmState) (t : String) :
    listeners st t = (bucketOf st t).filterMap id := by
  unfold listeners bucketOf
  cases st.buckets t <;> rfl

theorem bucketOf_addListener (st : EmState) (t t2 : String) (lid : Nat)
    (body : List Effect) (ctx : Option Nat) :
    bucketOf (addListener st t lid body ctx).1 t2 =
      if t2 = t then bucketOf st t ++ [some ⟨t, bucketLen st t, lid, body, ctx⟩]
      else bucketOf st t2 := by
  by_cases h : t2 = t <;> simp [bucketOf, addListener, bucketLen, h]

theorem bucketOf_removeSubscription (st : EmState) (t t2 : String) (k : Nat) :
    bucketOf (removeSubscription st t k) t2 =
      if t2 = t then (bucketOf st t).set k none else bucketOf st t2 := by
  unfold bucketOf removeSubscription
  cases hb : st.buckets t with
  | none => by_cases h : t2 = t <;> simp [h, hb]
  | some b => by_cases h : t2 = t <;> simp [h, hb]

theorem current_addListener (st : EmState) (t : String) (lid : Nat)
    (body : List Effect) (ctx : Option Nat) :
    (addListener st t lid body ctx).1.current = st.current := rfl

theorem current_removeSubscription (st : EmState) (t : String) (k : Nat) :
    (removeSubscription st t k).current = st.current := by
  unfold removeSubscription
  cases st.buckets t <;> rfl

theorem trace_addListener (st : EmState) (t : String) (lid : Nat)
    (body : List Effect) (ctx : Option Nat) :
    (addListener st t lid body ctx).1.trace = st.trace := rfl

theorem trace_removeSubscription (st : EmState) (t : String) (k : Nat) :
    (removeSubscription st t k).trace = st.trace := by
  unfold removeSubscription
  cases st.buckets t <;> rfl

theorem fired_addListener (st : EmState) (t : String) (lid : Nat)
    (body : List Effect) (ctx : Option Nat) :
    (addListener st t lid body ctx).1.fired = st.fired := rfl

theorem fired_removeSubscription (st : EmState) (t : String) (k : Nat) :
    (removeSubscription st t k).fired = st.fired := by
  unfold removeSubscription
  cases st.buckets t <;> rfl

/-! An abstract closure notion: a relation between states that holds
reflexively, composes, and is preserved by each primitive state change a
listener effect can make.  Preservation facts for the interpreter are
proved once against it and instantiated several times. -/

structure StepClosed (R : EmState → EmState → Prop) : Prop where
  rfl : ∀ s, R s s
  comp : ∀ a b c, R a b → R b c → R a c
  addc : ∀ s t lid body ctx, R s (addListener s t lid body ctx).1
  remc : ∀ s t k, R s (removeSubscription s t k)
  tracec : ∀ s c, R s { s with trace := s.trace ++ [c] }
  currentc : ∀ s sub, R s { s with current := sub }

theorem runEffect_rel {R : EmState → EmState → Prop} (h : StepClosed R)
    (s : EmState) (args : List String) (e : Effect) :
    R s (runEffect s args e).1 := by
  cases e with
  | addL t lid body ctx => exact h.addc s t lid body ctx
  | removeSlot t k => exact h.remc s t k
  | removeCurrent =>
    cases hc : s.current with
    | none => simpa [runEffect, removeCurrentListener, hc] using h.rfl s
    | some sub =>
      simpa [runEffect, removeCurrentListener, hc] using h.remc s sub.eventType sub.key
  | callOriginal lid ctx => exact h.tracec s ⟨lid, ctx, args⟩
  | throwErr m => exact h.rfl s

theorem runBody_rel {R : EmState → EmState → Prop} (h : StepClosed R)
    (args : List String) :
    ∀ (body : List Effect) (s : EmState), R s (runBody s args body).1 := by
  intro body
  induction body with
  | nil => intro s; exact h.rfl s
  | cons e rest ih =>
    intro s
    simp only [runBody]
    rcases he : runEffect s args e with ⟨s1, r⟩
    have h1 : R s s1 := by
      have := runEffect_rel h s args e
      rwa [he] at this
    cases r with
    | none => exact h.comp s s1 _ h1 (ih s1)
    | some m => exact h1

theorem dispatch_rel {R : EmState → EmState → Prop} (h : StepClosed R)
    (s : EmState) (args : List String) (sub : Subscription) :
    R s (dispatch s args sub).1 := by
  unfold dispatch
  refine h.comp s _ _ ?_ (runBody_rel h args sub.body _)
  exact h.comp s _ _ (h.tracec s ⟨sub.lid, sub.context, args⟩)
    (h.currentc _ (some sub))

theorem emitLoop_rel {R : EmState → EmState → Prop} (h : StepClosed R)
    (hfir : ∀ s e, R s { s with fired := s.fired ++ [e] })
    (t : String) (args : List String) :
    ∀ (ks : List Nat) (s : EmState), R s (emitLoop t args ks s).1 := by
  intro ks
  induction ks with
  | nil => intro s; exact h.rfl s
  | cons k ks ih =>
    intro s
    cases hs : slotAt s t k with
    | none => simp only [emitLoop, hs]; exact ih s
    | some sub =>
      rcases hd : dispatch { s with fired := s.fired ++ [⟨t, k, sub.lid, sub.context, args⟩] }
          args sub with ⟨s1, r⟩
      have h1 : R s s1 := by
        have h0 := hfir s (⟨t, k, sub.lid, sub.context, args⟩ : FiredEntry)
        have h2 := dispatch_rel h
          { s with fired := s.fired ++ [⟨t, k, sub.lid, sub.context, args⟩] } args sub
        rw [hd] at h2
        exact h.comp _ _ _ h0 h2
      cases r with
      | none => simp only [emitLoop, hs, hd]; exact h.comp s s1 _ h1 (ih s1)
      | some m => simp only [emitLoop, hs, hd]; exact h1

theorem emit_rel {R : EmState → EmState → Prop} (h : StepClosed R)
    (hfir : ∀ s e, R s { s with fired := s.fired ++ [e] })
    (s : EmState) (t : String) (args : List String) :
    R s (emit s t args).1 := by
  cases hb : s.buckets t with
  | none => simp only [emit, hb]; exact h.rfl s
  | some b =>
    rcases hl : emitLoop t args (liveKeys b) s with ⟨s1, r⟩
    have h1 : R s s1 := by
      have := emitLoop_rel h hfir t args (liveKeys b) s
      rwa [hl] at this
    cases r with
    | none => simp only [emit, hb, hl]; exact h.comp s s1 _ h1 (h.currentc s1 none)
    | some m => simp only [emit, hb, hl]; exact h1

/-! List access helper lemmas. -/

theorem getD_set_none {α : Type} (l : List (Option α)) (k : Nat) :
    (l.set k none).getD k none = none := by
  simp [List.getD_eq_getElem?_getD, List.getElem?_set]
  split <;> simp

theorem getD_set_other {α : Type} (l : List (Option α)) (k j : Nat) (h : k ≠ j) :
    (l.set k none).getD j none = l.getD j none := by
  simp [List.getD_eq_getElem?_getD, List.getElem?_set_ne h]

theorem getD_append_lt {α : Type} (l l2 : List α) (k : Nat) (h : k < l.length) (d : α) :
    (l ++ l2).getD k d = l.getD k d := by
  simp [List.getD_eq_getElem?_getD, List.getElem?_append, h]

/-- A removed (or never-filled) slot inside the collection's range: once a
slot in range holds none, the listener in it is gone for good. -/
def deadSlot (st : EmState) (t : String) (k : Nat) : Prop :=
  k < bucketLen st t ∧ slotAt st t k = none

theorem stepClosed_dead :
    StepClosed (fun a b => ∀ t k, deadSlot a t k → deadSlot b t k) := by
  constructor
  · intro s t k h; exact h
  · intro a b c h1 h2 t k h; exact h2 t k (h1 t k h)
  · intro s t lid body ctx tq k h
    obtain ⟨hlen, hslot⟩ := h
    rw [slotAt_eq] at hslot
    rw [bucketLen] at hlen
    simp only [deadSlot, bucketLen, slotAt_eq]
    rw [bucketOf_addListener]
    by_cases he : tq = t
    · subst he
      rw [if_pos rfl]
      constructor
      · simp only [List.length_append, List.length_cons, List.length_nil]
        omega
      · rw [getD_append_lt _ _ _ hlen]; exact hslot
    · rw [if_neg he]
      exact ⟨hlen, hslot⟩
  · intro s t k2 tq k h
    obtain ⟨hlen, hslot⟩ := h
    rw [slotAt_eq] at hslot
    rw [bucketLen] at hlen
    simp only [deadSlot, bucketLen, slotAt_eq]
    rw [bucketOf_removeSubscription]
    by_cases he : tq = t
    · subst he
      rw [if_pos rfl]
      constructor
      · rw [List.length_set]; exact hlen
      · by_cases hk : k2 = k
        · subst hk; exact getD_set_none _ _
        · rw [getD_set_other _ _ _ hk]; exact hslot
    · rw [if_neg he]
      exact ⟨hlen, hslot⟩
  · intro s c t k h; exact h
  · intro s sub t k h; exact h

theorem stepClosed_len :
    StepClosed (fun a b => ∀ t, bucketLen a t ≤ bucketLen b t) := by
  constructor
  · intro s t; exact Nat.le_refl _
  · intro a b c h1 h2 t; exact Nat.le_trans (h1 t) (h2 t)
  · intro s t lid body ctx tq
    rw [bucketLen, bucketLen, bucketOf_addListener]
    by_cases he : tq = t
    · subst he; simp
    · simp [if_neg he]
  · intro s t k tq
    rw [bucketLen, bucketLen, bucketOf_removeSubscription]
    by_cases he : tq = t
    · subst he; simp
    · simp [if_neg he]
  · intro s c t; exact Nat.le_refl _
  · intro s sub t; exact Nat.le_refl _

theorem stepClosed_trace :
    StepClosed (fun a b => ∃ l, b.trace = a.trace ++ l) := by
  constructor
  · intro s; exact ⟨[], by simp⟩
  · intro a b c h1 h2
    obtain ⟨l1, e1⟩ := h1
    obtain ⟨l2, e2⟩ := h2
    exact ⟨l1 ++ l2, by rw [e2, e1, List.append_assoc]⟩
  · intro s t lid body ctx; exact ⟨[], by simp [trace_addListener]⟩
  · intro s t k; exact ⟨[], by simp [trace_removeSubscription]⟩
  · intro s c; exact ⟨[c], rfl⟩
  · intro s sub; exact ⟨[], by simp⟩

theorem stepClosed_fired : StepClosed (fun a b => b.fired = a.fired) := by
  constructor
  · intro s; rfl
  · intro a b c h1 h2; rw [h2, h1]
  · intro s t lid body ctx; exact fired_addListener ..
  · intro s t k; exact fired_removeSubscription ..
  · intro s c; rfl
  · intro s sub; rfl

theorem runBody_fired (st : EmState) (args : List String) (body : List Effect) :
    (runBody st args body).1.fired = st.fired :=
  runBody_rel stepClosed_fired args body st

theorem dispatch_fired (st : EmState) (args : List String) (sub : Subscription) :
    (dispatch st args sub).1.fired = st.fired :=
  dispatch_rel stepClosed_fired st args sub

theorem emit_dead (st : EmState) (t : String) (args : List String)
    (tq : String) (k : Nat) (h : deadSlot st tq k) :
    deadSlot (emit st t args).1 tq k :=
  emit_rel stepClosed_dead (fun _ _ => fun _ _ hh => hh) st t args tq k h

theorem emit_len (st : EmState) (t : String) (args : List String) (tq : String) :
    bucketLen st tq ≤ bucketLen (emit st t args).1 tq :=
  emit_rel stepClosed_len (fun _ _ _ => Nat.le_refl _) st t args tq

theorem emit_trace_grows (st : EmState) (t : String) (args : List String) :
    ∃ l, (emit st t args).1.trace = st.trace ++ l :=
  emit_rel stepClosed_trace (fun _ _ => ⟨[], by simp⟩) st t args

theorem dispatch_dead (st : EmState) (args : List String) (sub : Subscription)
    (tq : String) (k : Nat) (h : deadSlot st tq k) :
    deadSlot (dispatch st args sub).1 tq k :=
  dispatch_rel stepClosed_dead st args sub tq k h

/-! Provenance of the ghost dispatch log: every entry that emit appends
comes from the snapshot taken at the start of the cycle. -/

theorem liveKeys_lt (b : List (Option Subscription)) (k : Nat) (h : k ∈ liveKeys b) :
    k < b.length := by
  unfold liveKeys at h
  exact List.mem_range.mp (List.mem_filter.mp h).1

theorem emitLoop_fired_mem (t : String) (args : List String) :
    ∀ (ks : List Nat) (st : EmState) (e : FiredEntry),
      e ∈ (emitLoop t args ks st).1.fired → e ∈ st.fired ∨ (e.etype = t ∧ e.key ∈ ks) := by
  intro ks
  induction ks with
  | nil => intro st e h; exact Or.inl h
  | cons k ks ih =>
    intro st e h
    cases hs : slotAt st t k with
    | none =>
      rw [show (emitLoop t args (k :: ks) st) = emitLoop t args ks st by
        simp only [emitLoop, hs]] at h
      refine (ih st e h).imp_right ?_
      exact fun hh => ⟨hh.1, List.mem_cons_of_mem _ hh.2⟩
    | some sub =>
      rcases hd : dispatch { st with fired := st.fired ++ [⟨t, k, sub.lid, sub.context, args⟩] }
          args sub with ⟨s1, r⟩
      have hf1 : s1.fired = st.fired ++ [⟨t, k, sub.lid, sub.context, args⟩] := by
        have := dispatch_fired
          { st with fired := st.fired ++ [⟨t, k, sub.lid, sub.context, args⟩] } args sub
        rw [hd] at this
        exact this
      have split1 : e ∈ s1.fired → e ∈ st.fired ∨ (e.etype = t ∧ e.key ∈ k :: ks) := by
        intro hm
        rw [hf1] at hm
        rcases List.mem_append.mp hm with h1 | h2
        · exact Or.inl h1
        · rcases List.mem_singleton.mp h2 with rfl
          exact Or.inr ⟨rfl, List.mem_cons_self ..⟩
      cases r with
      | none =>
        rw [show (emitLoop t args (k :: ks) st) = emitLoop t args ks s1 by
          simp only [emitLoop, hs, hd]] at h
        rcases ih s1 e h with h1 | h2
        · exact split1 h1
        · exact Or.inr ⟨h2.1, List.mem_cons_of_mem _ h2.2⟩
      | some m =>
        rw [show (emitLoop t args (k :: ks) st) = (s1, some m) by
          simp only [emitLoop, hs, hd]] at h
        exact split1 h

theorem bucketOf_eq_of_buckets (st : EmState) (t : String)
    (b : List (Option Subscription)) (hb : st.buckets t = some b) :
    bucketOf st t = b := by
  rw [bucketOf, hb]
  rfl

/-- Every entry the dispatch log gains during one emit call names the
emitted event type and a slot key that was within the collection's range
when the call started. -/
theorem emit_fired_mem (st : EmState) (t : String) (args : List String) (e : FiredEntry)
    (h : e ∈ (emit st t args).1.fired) :
    e ∈ st.fired ∨ (e.etype = t ∧ e.key < bucketLen st t) := by
  cases hb : st.buckets t with
  | none =>
    rw [show emit st t args = (st, none) by simp only [emit, hb]] at h
    exact Or.inl h
  | some b =>
    rcases hl : emitLoop t args (liveKeys b) st with ⟨s1, r⟩
    have hmem : e ∈ s1.fired → e ∈ st.fired ∨ (e.etype = t ∧ e.key < bucketLen st t) := by
      intro hm
      have := emitLoop_fired_mem t args (liveKeys b) st e (by rw [hl]; exact hm)
      refine this.imp_right fun hh => ⟨hh.1, ?_⟩
      rw [bucketLen, bucketOf_eq_of_buckets st t b hb]
      exact liveKeys_lt b e.key hh.2
    cases r with
    | none =>
      rw [show emit st t args = ({ s1 with current := none }, none) by
        simp only [emit, hb, hl]] at h
      exact hmem h
    | some m =>
      rw [show emit st t args = (s1, some m) by simp only [emit, hb, hl]] at h
      exact hmem h

/-! A dead slot is never dispatched: once a handler earlier in the cycle
(or any earlier operation) has removed a slot, the remainder of the loop
skips it, and it stays removed. -/

theorem emitLoop_dead_fired (t : String) (args : List String) :
    ∀ (ks : List Nat) (st : EmState) (k : Nat), deadSlot st t k →
      deadSlot (emitLoop t args ks st).1 t k ∧
      ∀ e, e ∈ (emitLoop t args ks st).1.fired →
        e ∈ st.fired ∨ ¬(e.etype = t ∧ e.key = k) := by
  intro ks
  induction ks with
  | nil => intro st k hdead; exact ⟨hdead, fun e h => Or.inl h⟩
  | cons k2 ks ih =>
    intro st k hdead
    cases hs : slotAt st t k2 with
    | none =>
      rw [show (emitLoop t args (k2 :: ks) st) = emitLoop t args ks st by
        simp only [emitLoop, hs]]
      exact ih st k hdead
    | some sub =>
      have hk2 : k2 ≠ k := by
        intro hc
        rw [hc, hdead.2] at hs
        exact Option.noConfusion hs
      rcases hd : dispatch { st with fired := st.fired ++ [⟨t, k2, sub.lid, sub.context, args⟩] }
          args sub with ⟨s1, r⟩
      have hf1 : s1.fired = st.fired ++ [⟨t, k2, sub.lid, sub.context, args⟩] := by
        have := dispatch_fired
          { st with fired := st.fired ++ [⟨t, k2, sub.lid, sub.context, args⟩] } args sub
        rw [hd] at this
        exact this
      have hdead1 : deadSlot s1 t k := by
        have := dispatch_dead
          { st with fired := st.fired ++ [⟨t, k2, sub.lid, sub.context, args⟩] } args sub t k
          hdead
        rwa [hd] at this
      have split1 : ∀ e, e ∈ s1.fired → e ∈ st.fired ∨ ¬(e.etype = t ∧ e.key = k) := by
        intro e hm
        rw [hf1] at hm
        rcases List.mem_append.mp hm with h1 | h2
        · exact Or.inl h1
        · rcases List.mem_singleton.mp h2 with rfl
          exact Or.inr fun hc => hk2 hc.2
      cases r with
      | none =>
        rw [show (emitLoop t args (k2 :: ks) st) = emitLoop t args ks s1 by
          simp only [emitLoop, hs, hd]]
        obtain ⟨hdd, hff⟩ := ih s1 k hdead1
        refine ⟨hdd, fun e h => ?_⟩
        rcases hff e h with h1 | h2
        · exact split1 e h1
        · exact Or.inr h2
      | some m =>
        rw [show (emitLoop t args (k2 :: ks) st) = (s1, some m) by
          simp only [emitLoop, hs, hd]]
        exact ⟨hdead1, split1⟩

/-- A slot that is dead when emit starts gains no dispatch-log entry from
that emit call and is still dead afterwards: such a listener never fires
again. -/
theorem emit_dead_fired (st : EmState) (t : String) (args : List String) (k : Nat)
    (hdead : deadSlot st t k) :
    deadSlot (emit st t args).1 t k ∧
    ∀ e, e ∈ (emit st t args).1.fired → e ∈ st.fired ∨ ¬(e.etype = t ∧ e.key = k) := by
  cases hb : st.buckets t with
  | none =>
    rw [show emit st t args = (st, none) by simp only [emit, hb]]
    exact ⟨hdead, fun e h => Or.inl h⟩
  | some b =>
    rcases hl : emitLoop t args (liveKeys b) st with ⟨s1, r⟩
    obtain ⟨hdd, hff⟩ := emitLoop_dead_fired t args (liveKeys b) st k hdead
    rw [hl] at hdd hff
    cases r with
    | none =>
      rw [show emit st t args = ({ s1 with current := none }, none) by
        simp only [emit, hb, hl]]
      constructor
      · rw [deadSlot, bucketLen, slotAt_eq] at hdd ⊢
        exact hdd
      · exact hff
    | some m =>
      rw [show emit st t args = (s1, some m) by simp only [emit, hb, hl]]
      exact ⟨hdd, hff⟩

/-! The snapshot keys enumerate exactly the present slots, in order. -/

theorem liveKeys_cons (o : Option Subscription) (b : List (Option Subscription)) :
    liveKeys (o :: b) = (if o.isSome then [0] else []) ++ (liveKeys b).map Nat.succ := by
  unfold liveKeys
  rw [List.length_cons, List.range_succ_eq_map]
  cases o <;>
    simp [List.filter_map, Function.comp_def, Nat.succ_eq_add_one, List.getElem?_cons_succ]

theorem liveKeys_filterMap : ∀ (b : List (Option Subscription)),
    (liveKeys b).filterMap (fun k => b.getD k none) = b.filterMap id := by
  intro b
  induction b with
  | nil => rfl
  | cons o b ih =>
    rw [liveKeys_cons, List.filterMap_append]
    cases o with
    | none =>
      simpa [List.filterMap_map, Function.comp_def, Nat.succ_eq_add_one,
        List.getElem?_cons_succ] using ih
    | some a =>
      simpa [List.filterMap_map, Function.comp_def, Nat.succ_eq_add_one,
        List.getElem?_cons_succ] using ih

/-- All present subscriptions for the type carry an empty effect list:
their listeners observe the event but do not touch the emitter while
running. -/
def Passive (st : EmState) (t : String) : Prop :=
  ∀ k sub, slotAt st t k = some sub → sub.body = []

theorem emitLoop_passive (t : String) (args : List String)
    (b : List (Option Subscription))
    (hp : ∀ k sub, b.getD k none = some sub → sub.body = []) :
    ∀ (ks : List Nat) (st : EmState), st.buckets t = some b →
      (emitLoop t args ks st).2 = none ∧
      (emitLoop t args ks st).1.buckets = st.buckets ∧
      (emitLoop t args ks st).1.trace =
        st.trace ++ (ks.filterMap (fun k => b.getD k none)).map
          (fun s => (⟨s.lid, s.context, args⟩ : Call)) := by
  intro ks
  induction ks with
  | nil =>
    intro st _
    exact ⟨rfl, rfl, by simp [emitLoop]⟩
  | cons k ks ih =>
    intro st hb
    have hslot : slotAt st t k = b.getD k none := by
      rw [slotAt_eq, bucketOf_eq_of_buckets st t b hb]
    cases hg : b.getD k none with
    | none =>
      rw [show emitLoop t args (k :: ks) st = emitLoop t args ks st by
        simp only [emitLoop, hslot, hg]]
      obtain ⟨h1, h2, h3⟩ := ih st hb
      refine ⟨h1, h2, ?_⟩
      rw [h3]
      have hg2 : b[k]?.getD none = none := by
        simpa [List.getD_eq_getElem?_getD] using hg
      simp [List.filterMap_cons, hg2]
    | some sub =>
      have hbody := hp k sub hg
      have hd : dispatch { st with fired := st.fired ++ [⟨t, k, sub.lid, sub.context, args⟩] }
          args sub =
          ({ st with current := some sub,
                     trace := st.trace ++ [⟨sub.lid, sub.context, args⟩],
                     fired := st.fired ++ [⟨t, k, sub.lid, sub.context, args⟩] }, none) := by
        unfold dispatch
        rw [hbody]
        rfl
      rw [show emitLoop t args (k :: ks) st =
          emitLoop t args ks
            { st with current := some sub,
                      trace := st.trace ++ [⟨sub.lid, sub.context, args⟩],
                      fired := st.fired ++ [⟨t, k, sub.lid, sub.context, args⟩] } by
        simp only [emitLoop, hslot, hg, hd]]
      obtain ⟨h1, h2, h3⟩ := ih
        { st with current := some sub,
                  trace := st.trace ++ [⟨sub.lid, sub.context, args⟩],
                  fired := st.fired ++ [⟨t, k, sub.lid, sub.context, args⟩] } hb
      refine ⟨h1, h2, ?_⟩
      rw [h3]
      have hg2 : b[k]?.getD none = some sub := by
        simpa [List.getD_eq_getElem?_getD] using hg
      simp [List.filterMap_cons, hg2, List.append_assoc]

/-- Emitting to passive listeners completes without error and appends to
the call log exactly one invocation per still-registered subscription of
the emitted type, in registration order, each with the subscription's
context as receiver and the emitted data arguments. -/
theorem emit_passive (st : EmState) (t : String) (args : List String)
    (hp : Passive st t) :
    (emit st t args).2 = none ∧
    (emit st t args).1.trace =
      st.trace ++ (listeners st t).map (fun s => (⟨s.lid, s.context, args⟩ : Call)) := by
  cases hb : st.buckets t with
  | none =>
    rw [show emit st t args = (st, none) by simp only [emit, hb]]
    refine ⟨rfl, ?_⟩
    rw [listeners_eq, bucketOf, hb]
    simp
  | some b =>
    have hp2 : ∀ k sub, b.getD k none = some sub → sub.body = [] := by
      intro k sub hg
      exact hp k sub (by rw [slotAt_eq, bucketOf_eq_of_buckets st t b hb]; exact hg)
    obtain ⟨h1, _h2, h3⟩ := emitLoop_passive t args b hp2 (liveKeys b) st hb
    rcases hl : emitLoop t args (liveKeys b) st with ⟨s1, r⟩
    rw [hl] at h1 h3
    cases r with
    | some m => exact absurd h1 (by simp)
    | none =>
      rw [show emit st t args = ({ s1 with current := none }, none) by
        simp only [emit, hb, hl]]
      refine ⟨rfl, ?_⟩
      show s1.trace = _
      rw [h3, liveKeys_filterMap, listeners_eq, bucketOf_eq_of_buckets st t b hb]

/-! Further list access helpers. -/

theorem getD_append_len {α : Type} (l : List α) (x d : α) : (l ++ [x]).getD l.length d = x := by
  simp [List.getD_eq_getElem?_getD, List.getElem?_append_right (Nat.le_refl _)]

theorem getD_ge {α : Type} (l : List α) (k : Nat) (h : l.length ≤ k) (d : α) :
    l.getD k d = d := by
  simp [List.getD_eq_getElem?_getD, List.getElem?_eq_none h]

/-! Exact shapes of the updated states. -/

theorem buckets_addListener (st : EmState) (t : String) (lid : Nat)
    (body : List Effect) (ctx : Option Nat) (t2 : String) :
    (addListener st t lid body ctx).1.buckets t2 =
      if t2 = t then
        some (bucketOf st t ++ [some ⟨t, bucketLen st t, lid, body, ctx⟩])
      else st.buckets t2 := rfl

theorem removeSubscription_eq_some (st : EmState) (t : String) (k : Nat)
    (b : List (Option Subscription)) (hb : st.buckets t = some b) :
    removeSubscription st t k =
      { st with buckets := fun t2 => if t2 = t then some (b.set k none) else st.buckets t2 } := by
  simp only [removeSubscription, hb]

/-! Silent no-ops (spec 4.1 and 7): unknown types and duplicate removal. -/

theorem emit_unregistered (st : EmState) (t : String) (args : List String)
    (hb : st.buckets t = none) : emit st t args = (st, none) := by
  simp only [emit, hb]

theorem removeSubscription_unregistered (st : EmState) (t : String) (k : Nat)
    (hb : st.buckets t = none) : removeSubscription st t k = st := by
  simp only [removeSubscription, hb]

theorem listeners_unregistered (st : EmState) (t : String)
    (hb : st.buckets t = none) : listeners st t = [] := by
  simp only [listeners, hb]

theorem removeSubscription_idem (st : EmState) (t : String) (k : Nat) :
    removeSubscription (removeSubscription st t k) t k = removeSubscription st t k := by
  cases hb : st.buckets t with
  | none =>
    rw [removeSubscription_unregistered st t k hb, removeSubscription_unregistered st t k hb]
  | some b =>
    rw [removeSubscription_eq_some st t k b hb]
    rw [removeSubscription_eq_some _ t k (b.set k none) (by simp)]
    congr 1
    funext t2
    by_cases he : t2 = t
    · rw [if_pos he, if_pos he, List.set_set]
    · simp [he]

/-! The current-subscription field across emit. -/

theorem emit_ok_current (st : EmState) (t : String) (args : List String)
    (b : List (Option Subscription)) (hb : st.buckets t = some b)
    (hok : (emit st t args).2 = none) : (emit st t args).1.current = none := by
  rcases hl : emitLoop t args (liveKeys b) st with ⟨s1, r⟩
  cases r with
  | none =>
    rw [show emit st t args = ({ s1 with current := none }, none) by
      simp only [emit, hb, hl]]
  | some m =>
    rw [show emit st t args = (s1, some m) by simp only [emit, hb, hl]] at hok
    exact absurd hok (by simp)

theorem removeCurrentListener_of_none (st : EmState) (h : st.current = none) :
    removeCurrentListener st =
      (st, some "Not in an emitting cycle; there is no current subscription") := by
  simp only [removeCurrentListener, h]

theorem removeCurrentListener_of_some (st : EmState) (sub : Subscription)
    (h : st.current = some sub) :
    removeCurrentListener st = (removeSubscription st sub.eventType sub.key, none) := by
  simp only [removeCurrentListener, h]

theorem slotAt_removeSubscription_self (st : EmState) (t : String) (k : Nat) :
    slotAt (removeSubscription st t k) t k = none := by
  rw [slotAt_eq, bucketOf_removeSubscription, if_pos rfl]
  exact getD_set_none _ _

/-- The once wrapper's body, run while its own subscription is current:
it first removes that subscription and only then logs the invocation of
the original listener with the original context and the received
arguments — the subscription is gone by the time the original runs. -/
theorem runBody_once_wrapper (st : EmState) (args : List String) (sub : Subscription)
    (lid : Nat) (ctx : Option Nat) (h : st.current = some sub) :
    runBody st args [Effect.removeCurrent, Effect.callOriginal lid ctx] =
      ({ removeSubscription st sub.eventType sub.key with
          trace := (removeSubscription st sub.eventType sub.key).trace ++ [⟨lid, ctx, args⟩] },
        none) ∧
    slotAt (removeSubscription st sub.eventType sub.key) sub.eventType sub.key = none := by
  constructor
  · simp only [runBody, runEffect, removeCurrentListener_of_some st sub h]
  · exact slotAt_removeSubscription_self st sub.eventType sub.key

/-! Vendor well-formedness: a subscription stored in slot k of the
collection for type t carries eventType t and key k (spec 4.1: keys are
the insertion indices, assigned by addSubscription, never reused). -/

def WF (st : EmState) : Prop :=
  ∀ t b, st.buckets t = some b → ∀ k sub, b.getD k none = some sub →
    sub.eventType = t ∧ sub.key = k

theorem WF_init : WF initState := by
  intro t b hb
  simp [initState] at hb

theorem addListener_WF (st : EmState) (t : String) (lid : Nat) (body : List Effect)
    (ctx : Option Nat) (hwf : WF st) : WF (addListener st t lid body ctx).1 := by
  intro t2 b2 hb2 k2 sub2 hget
  rw [buckets_addListener] at hb2
  by_cases he : t2 = t
  · subst he
    rw [if_pos rfl] at hb2
    injection hb2 with hb2
    subst hb2
    rcases Nat.lt_trichotomy k2 (bucketOf st t2).length with hlt | heq | hgt
    · rw [getD_append_lt _ _ _ hlt] at hget
      cases hsb : st.buckets t2 with
      | none =>
        rw [show bucketOf st t2 = [] by rw [bucketOf, hsb]; rfl] at hget
        simp [List.getD] at hget
      | some b0 =>
        exact hwf t2 b0 hsb k2 sub2 (by rwa [bucketOf_eq_of_buckets st t2 b0 hsb] at hget)
    · subst heq
      rw [getD_append_len] at hget
      injection hget with hget
      subst hget
      exact ⟨rfl, rfl⟩
    · rw [getD_ge _ _ (by simp; omega)] at hget
      exact Option.noConfusion hget
  · rw [if_neg he] at hb2
    exact hwf t2 b2 hb2 k2 sub2 hget

theorem removeSubscription_WF (st : EmState) (t : String) (k : Nat) (hwf : WF st) :
    WF (removeSubscription st t k) := by
  cases hsb : st.buckets t with
  | none => rwa [removeSubscription_unregistered st t k hsb]
  | some b0 =>
    rw [removeSubscription_eq_some st t k b0 hsb]
    intro t2 b2 hb2 k2 sub2 hget
    by_cases he : t2 = t
    · subst he
      rw [show ({ st with
            buckets := fun t3 => if t3 = t2 then some (b0.set k none) else st.buckets t3 } :
          EmState).buckets t2 = some (b0.set k none) by simp] at hb2
      injection hb2 with hb2
      subst hb2
      by_cases hk : k = k2
      · subst hk
        rw [getD_set_none] at hget
        exact Option.noConfusion hget
      · rw [getD_set_other _ _ _ hk] at hget
        exact hwf t2 b0 hsb k2 sub2 hget
    · rw [show ({ st with
            buckets := fun t3 => if t3 = t then some (b0.set k none) else st.buckets t3 } :
          EmState).buckets t2 = st.buckets t2 by simp [he]] at hb2
      exact hwf t2 b2 hb2 k2 sub2 hget

theorem stepClosed_WF : StepClosed (fun a b => WF a → WF b) := by
  constructor
  · intro s h; exact h
  · intro a b c h1 h2 h; exact h2 (h1 h)
  · intro s t lid body ctx h; exact addListener_WF s t lid body ctx h
  · intro s t k h; exact removeSubscription_WF s t k h
  · intro s c h; exact h
  · intro s sub h; exact h

theorem emit_WF (st : EmState) (t : String) (args : List String) (hwf : WF st) :
    WF (emit st t args).1 :=
  emit_rel stepClosed_WF (fun _ _ hh => hh) st t args hwf

/-! Registration order and exclusion of removed slots in listeners. -/

theorem filterMap_keys_sorted :
    ∀ (b : List (Option Subscription)) (off : Nat),
      (∀ k sub, b.getD k none = some sub → sub.key = off + k) →
      List.Pairwise (fun a c => a.key < c.key) (b.filterMap id) ∧
      ∀ s2 ∈ b.filterMap id, off ≤ s2.key := by
  intro b
  induction b with
  | nil => intro off _; exact ⟨List.Pairwise.nil, by simp⟩
  | cons o b ih =>
    intro off h
    have htail : ∀ k sub, b.getD k none = some sub → sub.key = (off + 1) + k := by
      intro k sub hk
      have h2 := h (k + 1) sub
        (by simpa [List.getD_eq_getElem?_getD, List.getElem?_cons_succ] using hk)
      omega
    obtain ⟨hp, hge⟩ := ih (off + 1) htail
    cases o with
    | none =>
      refine ⟨by simpa [List.filterMap_cons] using hp, ?_⟩
      intro s2 hs
      have := hge s2 (by simpa [List.filterMap_cons] using hs)
      omega
    | some s0 =>
      have hk0 : s0.key = off := by
        have := h 0 s0 (by simp [List.getD_eq_getElem?_getD])
        omega
      have hcons : (some s0 :: b).filterMap id = s0 :: b.filterMap id := by
        simp [List.filterMap_cons]
      rw [hcons]
      constructor
      · refine List.Pairwise.cons ?_ hp
        intro y hy
        have := hge y hy
        omega
      · intro s2 hs
        rcases List.mem_cons.mp hs with rfl | hs2
        · omega
        · have := hge s2 hs2
          omega

/-- Under well-formedness, listeners(type) is ordered by slot key, i.e.
by registration order. -/
theorem listeners_sorted (st : EmState) (t : String) (hwf : WF st) :
    List.Pairwise (fun a c => a.key < c.key) (listeners st t) := by
  cases hb : st.buckets t with
  | none => rw [listeners_unregistered st t hb]; exact List.Pairwise.nil
  | some b =>
    rw [listeners_eq, bucketOf_eq_of_buckets st t b hb]
    exact (filterMap_keys_sorted b 0
      (fun k sub hk => by have := (hwf t b hb k sub hk).2; omega)).1

/-- Under well-formedness, every subscription listeners(type) returns is
exactly the live occupant of its own slot. -/
theorem listeners_mem_slot (st : EmState) (t : String) (hwf : WF st)
    (s2 : Subscription) (hs : s2 ∈ listeners st t) : slotAt st t s2.key = some s2 := by
  cases hb : st.buckets t with
  | none =>
    rw [listeners_unregistered st t hb] at hs
    exact absurd hs (List.not_mem_nil s2)
  | some b =>
    rw [listeners_eq, bucketOf_eq_of_buckets st t b hb] at hs
    obtain ⟨o, ho, hid⟩ := List.mem_filterMap.mp hs
    obtain ⟨n, hn, he⟩ := List.mem_iff_getElem.mp ho
    have hget : b.getD n none = some s2 := by
      simp only [id] at hid
      simp [List.getD_eq_getElem?_getD, List.getElem?_eq_getElem hn, he, hid]
    have hkey := (hwf t b hb n s2 hget).2
    rw [slotAt_eq, bucketOf_eq_of_buckets st t b hb, hkey]
    exact hget

/-- A removed slot's subscription is excluded from listeners(type). -/
theorem listeners_not_removed (st : EmState) (t : String) (k : Nat) (hwf : WF st)
    (hdead : slotAt st t k = none) : ∀ s2 ∈ listeners st t, s2.key ≠ k := by
  intro s2 hs hc
  have hslot := listeners_mem_slot st t hwf s2 hs
  rw [hc, hdead] at hslot
  exact Option.noConfusion hslot

/-! Trace-side description of dispatch-log entries. -/

theorem emitLoop_trace_grows (t : String) (args : List String) (ks : List Nat)
    (st : EmState) : ∃ l, (emitLoop t args ks st).1.trace = st.trace ++ l :=
  emitLoop_rel stepClosed_trace (fun _ _ => ⟨[], by simp⟩) t args ks st

theorem runBody_trace_grows (st : EmState) (args : List String) (body : List Effect) :
    ∃ l, (runBody st args body).1.trace = st.trace ++ l :=
  runBody_rel stepClosed_trace args body st

/-- Every dispatch the emit loop performs leaves a matching entry in the
invocation log: the listener was applied with the dispatched
subscription's context as receiver and exactly the emitted data
arguments. -/
theorem emitLoop_fired_call (t : String) (args : List String) :
    ∀ (ks : List Nat) (st : EmState) (e : FiredEntry),
      e ∈ (emitLoop t args ks st).1.fired →
      e ∈ st.fired ∨ (e.args = args ∧
        (⟨e.lid, e.receiver, e.args⟩ : Call) ∈ (emitLoop t args ks st).1.trace) := by
  intro ks
  induction ks with
  | nil => intro st e h; exact Or.inl h
  | cons k ks ih =>
    intro st e h
    cases hs : slotAt st t k with
    | none =>
      rw [show (emitLoop t args (k :: ks) st) = emitLoop t args ks st by
        simp only [emitLoop, hs]] at h ⊢
      exact ih st e h
    | some sub =>
      rcases hd : dispatch { st with fired := st.fired ++ [⟨t, k, sub.lid, sub.context, args⟩] }
          args sub with ⟨s1, r⟩
      have hf1 : s1.fired = st.fired ++ [⟨t, k, sub.lid, sub.context, args⟩] := by
        have := dispatch_fired
          { st with fired := st.fired ++ [⟨t, k, sub.lid, sub.context, args⟩] } args sub
        rw [hd] at this
        exact this
      have hcall : (⟨sub.lid, sub.context, args⟩ : Call) ∈ s1.trace := by
        obtain ⟨l, hl⟩ := runBody_trace_grows
          { st with current := some sub, trace := st.trace ++ [⟨sub.lid, sub.context, args⟩],
                    fired := st.fired ++ [⟨t, k, sub.lid, sub.context, args⟩] } args sub.body
        have hs1 : s1.trace = (st.trace ++ [⟨sub.lid, sub.context, args⟩]) ++ l := by
          have hd2 : (dispatch { st with
              fired := st.fired ++ [⟨t, k, sub.lid, sub.context, args⟩] } args sub).1 = s1 := by
            rw [hd]
          rw [← hd2]
          exact hl
        rw [hs1]
        exact List.mem_append_left l (List.mem_append_right _ (List.mem_singleton.mpr rfl))
      have hentry : ∀ res : EmState, (∃ l2, res.trace = s1.trace ++ l2) →
          e ∈ s1.fired → e ∈ st.fired ∨ (e.args = args ∧
            (⟨e.lid, e.receiver, e.args⟩ : Call) ∈ res.trace) := by
        intro res hgrow hm
        rw [hf1] at hm
        rcases List.mem_append.mp hm with h1 | h2
        · exact Or.inl h1
        · rcases List.mem_singleton.mp h2 with rfl
          refine Or.inr ⟨rfl, ?_⟩
          obtain ⟨l2, hl2⟩ := hgrow
          rw [hl2]
          exact List.mem_append_left l2 hcall
      cases r with
      | none =>
        rw [show (emitLoop t args (k :: ks) st) = emitLoop t args ks s1 by
          simp only [emitLoop, hs, hd]] at h ⊢
        rcases ih s1 e h with h1 | h2
        · exact hentry (emitLoop t args ks s1).1 (emitLoop_trace_grows t args ks s1) h1
        · exact Or.inr h2
      | some m =>
        rw [show (emitLoop t args (k :: ks) st) = (s1, some m) by
          simp only [emitLoop, hs, hd]] at h ⊢
        exact hentry s1 ⟨[], by simp⟩ h

/-- Emit-level version of the dispatch/log correspondence. -/
theorem emit_fired_call (st : EmState) (t : String) (args : List String) (e : FiredEntry)
    (h : e ∈ (emit st t args).1.fired) :
    e ∈ st.fired ∨ (e.args = args ∧
      (⟨e.lid, e.receiver, e.args⟩ : Call) ∈ (emit st t args).1.trace) := by
  cases hb : st.buckets t with
  | none =>
    rw [show emit st t args = (st, none) by simp only [emit, hb]] at h
    exact Or.inl h
  | some b =>
    rcases hl : emitLoop t args (liveKeys b) st with ⟨s1, r⟩
    have hloop := emitLoop_fired_call t args (liveKeys b) st e
    rw [hl] at hloop
    cases r with
    | none =>
      rw [show emit st t args = ({ s1 with current := none }, none) by
        simp only [emit, hb, hl]] at h ⊢
      exact hloop h
    | some m =>
      rw [show emit st t args = (s1, some m) by simp only [emit, hb, hl]] at h ⊢
      exact hloop h

/-! A decidable sufficient condition for passivity, used to discharge
Passive at concrete states. -/

theorem mem_of_getD {α : Type} (l : List (Option α)) (k : Nat) (a : α)
    (h : l.getD k none = some a) : some a ∈ l := by
  rcases Nat.lt_or_ge k l.length with hl | hg
  · have hk : l[k]? = some l[k] := List.getElem?_eq_getElem hl
    have : l[k] = some a := by
      rw [List.getD_eq_getElem?_getD, hk] at h
      exact h
    rw [← this]
    exact List.getElem_mem hl
  · rw [getD_ge _ _ hg] at h
    exact absurd h (by simp)

theorem passive_of_all (st : EmState) (t : String)
    (h : (bucketOf st t).all
      (fun o => match o with | none => true | some s => s.body.isEmpty) = true) :
    Passive st t := by
  intro k sub hslot
  rw [slotAt_eq] at hslot
  have hmem := mem_of_getD (bucketOf st t) k sub hslot
  have := List.all_eq_true.mp h (some sub) hmem
  simpa [List.isEmpty_iff] using this

/-! Concrete scenarios, mirroring the repository's test suite.  Listener
functions are numbered; a plain callback has an empty effect list. -/

/-- A listener that throws, registered on "t". -/
def stThrow : EmState := (addListener initState "t" 1 [Effect.throwErr "boom"] none).1

/-- emit to the throwing listener: the exception propagates. -/
def emThrow : EmState × Option String := emit stThrow "t" ["a"]

/-- Handler 1 adds a new listener (function 2) for the same type while
handling the event. -/
def stAdd : EmState :=
  (addListener initState "type1" 1 [Effect.addL "type1" 2 [] none] none).1

def emAdd1 : EmState × Option String := emit stAdd "type1" ["d"]

def emAdd2 : EmState × Option String := emit emAdd1.1 "type1" ["d"]

/-- Handler 1 removes handler 2's subscription (slot 1) mid-cycle. -/
def stRem : EmState :=
  (addListener (addListener initState "type1" 1 [Effect.removeSlot "type1" 1] none).1
    "type1" 2 [] none).1

def emRem1 : EmState × Option String := emit stRem "type1" ["d"]

def emRem2 : EmState × Option String := emit emRem1.1 "type1" ["d"]

/-- Handler 2 removes handler 1's subscription (slot 0), which has
already been invoked earlier in the same cycle. -/
def stRemEarlier : EmState :=
  (addListener (addListener initState "type1" 1 [] none).1
    "type1" 2 [Effect.removeSlot "type1" 0] none).1

def emRemEarlier1 : EmState × Option String := emit stRemEarlier "type1" ["d"]

def emRemEarlier2 : EmState × Option String := emit emRemEarlier1.1 "type1" ["d"]

/-- Handler 4 removes itself through removeCurrentListener. -/
def stSelf : EmState := (addListener initState "type1" 4 [Effect.removeCurrent] none).1

def emSelf1 : EmState × Option String := emit stSelf "type1" ["data"]

def emSelf2 : EmState × Option String := emit emSelf1.1 "type1" ["data"]

/-- once with wrapper function 7, original listener 9, context 3. -/
def stOnce : EmState := (once initState "type1" 7 9 (some 3)).1

def emOnce1 : EmState × Option String := emit stOnce "type1" ["x"]

def emOnce2 : EmState × Option String := emit emOnce1.1 "type1" ["x"]

/-- Listeners 1 and 2 on type1, listener 3 on type2, all plain. -/
def stTwo : EmState :=
  (addListener (addListener (addListener initState "type1" 1 [] none).1
    "type1" 2 [] none).1 "type2" 3 [] none).1

def emTwo : EmState × Option String := emit stTwo "type1" ["data"]

/-- A plain listener 5 registered with context 2. -/
def stCtx : EmState := (addListener initState "type1" 5 [] (some 2)).1

def emCtx : EmState × Option String := emit stCtx "type1" ["data"]

/-- Listeners 1 and 2 registered on type1, then slot 0 removed. -/
def stL : EmState :=
  (addListener (addListener initState "type1" 1 [] none).1 "type1" 2 [] none).1

def stLRem : EmState := removeSubscription stL "type1" 0

/-- C1 counterexample: a listener that throws mid-loop makes emit
propagate the exception while the currently-invoking field is NOT
cleared to null, refuting the claim that the field is cleared on every
path including the throwing one. -/
theorem C1_cex : emThrow.2 = some "boom" ∧ ¬ emThrow.1.current = none := by
  refine ⟨by decide, fun h => ?_⟩
  have h2 : emThrow.1.current.isSome = true := by decide
  rw [h] at h2
  simp at h2

/-- C1 amended: the currently-invoking field is cleared to null when the
dispatch loop completes normally; when a listener invocation throws
mid-loop, the exception propagates out of emit and the field retains the
throwing subscription. -/
theorem C1_amended :
    (∀ (st : EmState) (t : String) (args : List String) (b : List (Option Subscription)),
      st.buckets t = some b → (emit st t args).2 = none →
      (emit st t args).1.current = none) ∧
    (emThrow.2 = some "boom" ∧ emThrow.1.current.map (fun s => s.lid) = some 1) := by
  exact ⟨fun st t args b hb hok => emit_ok_current st t args b hb hok, by decide⟩

theorem C1_witness : (emit stTwo "type1" ["data"]).1.current = none :=
  C1_amended.1 stTwo "type1" ["data"] (bucketOf stTwo "type1") rfl (by decide)

/-- C2 counterexample: after an emit whose listener threw, no emission is
in progress any more, yet removeCurrentListener does not raise — the
stale currently-invoking field makes it remove the leftover subscription
instead — refuting the claim that every call outside an emission raises
the invalid-operation error. -/
theorem C2_cex :
    emThrow.2 = some "boom" ∧ (removeCurrentListener emThrow.1).2 = none := by decide

/-- C2 amended: removeCurrentListener raises the fixed invalid-operation
error exactly when the currently-invoking field is null — which holds
outside an emission unless a prior emit propagated a listener exception —
and otherwise removes the subscription held in that field without
raising; in particular a handler that calls it mid-emit removes itself
and never fires again. -/
theorem C2_amended :
    (∀ st : EmState, st.current = none → removeCurrentListener st =
      (st, some "Not in an emitting cycle; there is no current subscription")) ∧
    (∀ (st : EmState) (sub : Subscription), st.current = some sub →
      removeCurrentListener st = (removeSubscription st sub.eventType sub.key, none)) ∧
    (emSelf1.2 = none ∧ countCalls 4 emSelf1.1.trace = 1 ∧
      countCalls 4 emSelf2.1.trace = 1) := by
  exact ⟨removeCurrentListener_of_none, removeCurrentListener_of_some, by decide⟩

theorem C2_witness :
    removeCurrentListener initState =
      (initState, some "Not in an emitting cycle; there is no current subscription") :=
  C2_amended.1 initState rfl

/-- C10: after a listener throw propagates out of emit, the
currently-invoking field retains the throwing subscription (slot 0), and
a subsequent removeCurrentListener call made outside any emission does
not throw: it removes that stale subscription. -/
theorem C10_stale :
    emThrow.2 = some "boom" ∧
    emThrow.1.current.map (fun s => s.key) = some 0 ∧
    (removeCurrentListener emThrow.1).2 = none ∧
    (slotAt (removeCurrentListener emThrow.1).1 "t" 0).isSome = false := by decide

/-- C3: emit dispatches only slot keys that were present when the call
began (every dispatch-log entry gained carries a key below the
collection's length at the start), a subscription registered during the
cycle receives a key equal to the collection's current length, and
lengths never shrink during the loop — so a listener added by a handler
is not invoked in the same cycle; the concrete scenario shows it is
invoked by the next emit for that type. -/
theorem C3_snapshot :
    (∀ (st : EmState) (t : String) (args : List String) (e : FiredEntry),
      e ∈ (emit st t args).1.fired →
        e ∈ st.fired ∨ (e.etype = t ∧ e.key < bucketLen st t)) ∧
    (∀ (st : EmState) (t : String) (lid : Nat) (body : List Effect) (ctx : Option Nat),
      (addListener st t lid body ctx).2.key = bucketLen st t) ∧
    (∀ (t : String) (args : List String) (ks : List Nat) (st : EmState) (t2 : String),
      bucketLen st t2 ≤ bucketLen (emitLoop t args ks st).1 t2) ∧
    (countCalls 2 emAdd1.1.trace = 0 ∧ countCalls 1 emAdd1.1.trace = 1 ∧
      countCalls 2 emAdd2.1.trace = 1) := by
  refine ⟨emit_fired_mem, fun st t lid body ctx => rfl, ?_, by decide⟩
  exact fun t args ks st t2 =>
    emitLoop_rel stepClosed_len (fun _ _ _ => Nat.le_refl _) t args ks st t2

theorem C3_witness :
    (⟨"type1", 0, 1, none, ["d"]⟩ : FiredEntry) ∈ stAdd.fired ∨
      ("type1" = "type1" ∧ 0 < bucketLen stAdd "type1") :=
  C3_snapshot.1 stAdd "type1" ["d"] ⟨"type1", 0, 1, none, ["d"]⟩ (by decide)

/-- C4: a slot that is dead (removed) at any point during the cycle —
whether through remove() or removeCurrentListener() — is skipped for the
remainder of the loop, stays dead, and gains no dispatch; the concrete
scenarios check removal of a later listener (skipped in the same cycle
and in future ones), removal of an earlier listener whose logged call
stands, and self-removal. -/
theorem C4_recheck :
    (∀ (t : String) (args : List String) (ks : List Nat) (st : EmState) (k : Nat),
      deadSlot st t k →
        deadSlot (emitLoop t args ks st).1 t k ∧
        ∀ e, e ∈ (emitLoop t args ks st).1.fired →
          e ∈ st.fired ∨ ¬(e.etype = t ∧ e.key = k)) ∧
    (countCalls 1 emRem1.1.trace = 1 ∧ countCalls 2 emRem1.1.trace = 0 ∧
      countCalls 2 emRem2.1.trace = 0 ∧
      emRemEarlier1.1.trace = [⟨1, none, ["d"]⟩, ⟨2, none, ["d"]⟩] ∧
      countCalls 4 emSelf1.1.trace = 1 ∧ countCalls 4 emSelf2.1.trace = 1) := by
  exact ⟨emitLoop_dead_fired, by decide⟩

theorem C4_witness :
    deadSlot (emitLoop "type1" ["d"] [0] stLRem).1 "type1" 0 ∧
    ∀ e, e ∈ (emitLoop "type1" ["d"] [0] stLRem).1.fired →
      e ∈ stLRem.fired ∨ ¬(e.etype = "type1" ∧ e.key = 0) :=
  C4_recheck.1 "type1" ["d"] [0] stLRem 0 ⟨by decide, rfl⟩

/-- C5: the once wrapper's body removes its own subscription and only
then applies the original listener with the original context and the
received arguments, so the subscription is already unregistered by the
time the original runs; in the concrete scenario two successive emits
invoke the original listener 9 exactly once in total, on the first emit,
with its context 3 and the emitted argument. -/
theorem C5_once :
    (∀ (st : EmState) (t : String) (wlid lid : Nat) (ctx : Option Nat),
      (once st t wlid lid ctx).2.body =
        [Effect.removeCurrent, Effect.callOriginal lid ctx]) ∧
    (∀ (st : EmState) (args : List String) (sub : Subscription) (lid : Nat)
        (ctx : Option Nat), st.current = some sub →
      runBody st args [Effect.removeCurrent, Effect.callOriginal lid ctx] =
        ({ removeSubscription st sub.eventType sub.key with
            trace := (removeSubscription st sub.eventType sub.key).trace ++
              [⟨lid, ctx, args⟩] }, none) ∧
      slotAt (removeSubscription st sub.eventType sub.key) sub.eventType sub.key = none) ∧
    (emOnce1.1.trace = [⟨7, none, ["x"]⟩, ⟨9, some 3, ["x"]⟩] ∧
      emOnce2.1.trace = emOnce1.1.trace ∧
      countCalls 9 emOnce2.1.trace = 1 ∧
      (listeners emOnce1.1 "type1").length = 0 ∧
      emOnce1.2 = none ∧ emOnce2.2 = none) := by
  exact ⟨fun st t wlid lid ctx => rfl, runBody_once_wrapper, by decide⟩

/-- State mid-emit, just after the once wrapper became current. -/
def stOnceMid : EmState :=
  { stOnce with current := some (once initState "type1" 7 9 (some 3)).2 }

theorem C5_witness :
    runBody stOnceMid ["x"] [Effect.removeCurrent, Effect.callOriginal 9 (some 3)] =
      ({ removeSubscription stOnceMid "type1" 0 with
          trace := (removeSubscription stOnceMid "type1" 0).trace ++ [⟨9, some 3, ["x"]⟩] },
        none) ∧
    slotAt (removeSubscription stOnceMid "type1" 0) "type1" 0 = none :=
  C5_once.2.1 stOnceMid ["x"] (once initState "type1" 7 9 (some 3)).2 9 (some 3) rfl

/-- C6: with passive listeners, one emit completes without error and
appends exactly one invocation per still-registered subscription of the
emitted type, in registration order, each with the emitted argument;
dispatch never reaches a subscription registered under a different type,
and in the concrete scenario the type2 listener is not called by
emitting type1. -/
theorem C6_deliver :
    (∀ (st : EmState) (t : String) (args : List String), Passive st t →
      (emit st t args).2 = none ∧
      (emit st t args).1.trace =
        st.trace ++ (listeners st t).map (fun s => (⟨s.lid, s.context, args⟩ : Call))) ∧
    (∀ (st : EmState) (t : String) (args : List String) (e : FiredEntry),
      e ∈ (emit st t args).1.fired → e ∈ st.fired ∨ e.etype = t) ∧
    (emTwo.1.trace = [⟨1, none, ["data"]⟩, ⟨2, none, ["data"]⟩] ∧
      countCalls 3 emTwo.1.trace = 0) := by
  refine ⟨emit_passive, ?_, by decide⟩
  intro st t args e h
  exact (emit_fired_mem st t args e h).imp_right And.left

theorem C6_witness :
    (emit stTwo "type1" ["data"]).2 = none ∧
    (emit stTwo "type1" ["data"]).1.trace =
      stTwo.trace ++
        (listeners stTwo "type1").map (fun s => (⟨s.lid, s.context, ["data"]⟩ : Call)) :=
  C6_deliver.1 stTwo "type1" ["data"] (passive_of_all stTwo "type1" (by decide))

/-- C7 counterexample: the listener registered with context 2 receives
only the emitted data argument; its argument list is not the event type
followed by the data, refuting the claimed argument order. -/
theorem C7_cex :
    emCtx.1.trace = [⟨5, some 2, ["data"]⟩] ∧
    ¬ emCtx.1.trace = [⟨5, some 2, ["type1", "data"]⟩] := by decide

/-- C7 amended: each dispatched subscription's listener is applied with
its registered context as receiver and exactly the emitted data
arguments — the arguments after the event type, in order; the event type
itself is not passed to the listener. -/
theorem C7_amended :
    (∀ (st : EmState) (t : String) (args : List String) (e : FiredEntry),
      e ∈ (emit st t args).1.fired →
        e ∈ st.fired ∨ (e.args = args ∧
          (⟨e.lid, e.receiver, e.args⟩ : Call) ∈ (emit st t args).1.trace)) ∧
    emCtx.1.trace = [⟨5, some 2, ["data"]⟩] := by
  exact ⟨emit_fired_call, by decide⟩

theorem C7_witness :
    (⟨"type1", 0, 5, some 2, ["data"]⟩ : FiredEntry) ∈ stCtx.fired ∨
      ((["data"] : List String) = ["data"] ∧
        (⟨5, some 2, ["data"]⟩ : Call) ∈ (emit stCtx "type1" ["data"]).1.trace) :=
  C7_amended.1 stCtx "type1" ["data"] ⟨"type1", 0, 5, some 2, ["data"]⟩ (by decide)

/-- C8: under vendor well-formedness — established for the initial state
and preserved by every operation — listeners(type) is ordered by slot
key, i.e. registration order, contains no subscription whose slot was
removed, and is empty for a type never registered; the concrete scenario
checks the contents before and after a removal and for an unknown
type. -/
theorem C8_listeners :
    (∀ (st : EmState) (t : String), WF st →
      List.Pairwise (fun a c => a.key < c.key) (listeners st t)) ∧
    (∀ (st : EmState) (t : String) (k : Nat), WF st → slotAt st t k = none →
      ∀ s2 ∈ listeners st t, s2.key ≠ k) ∧
    (∀ (st : EmState) (t : String), st.buckets t = none → listeners st t = []) ∧
    ((listeners stL "type1").map (fun s => (s.key, s.lid)) = [(0, 1), (1, 2)] ∧
      (listeners stLRem "type1").map (fun s => (s.key, s.lid)) = [(1, 2)] ∧
      (listeners stL "zzz").length = 0) := by
  exact ⟨fun st t hwf => listeners_sorted st t hwf,
    fun st t k hwf hd => listeners_not_removed st t k hwf hd,
    listeners_unregistered, by decide⟩

theorem C8_witness :
    ∀ s2 ∈ listeners stLRem "type1", s2.key ≠ 0 :=
  C8_listeners.2.1 stLRem "type1" 0
    (removeSubscription_WF stL "type1" 0
      (addListener_WF _ "type1" 2 [] none (addListener_WF _ "type1" 1 [] none WF_init)))
    rfl

/-- C9: emitting a type for which no collection was ever created returns
the state unchanged with no error; removing a subscription of an unknown
type is a no-op; removing the same slot twice equals removing it once;
and listeners of an unregistered type is empty — none of these raise. -/
theorem C9_noop :
    (∀ (st : EmState) (t : String) (args : List String), st.buckets t = none →
      emit st t args = (st, none)) ∧
    (∀ (st : EmState) (t : String) (k : Nat), st.buckets t = none →
      removeSubscription st t k = st) ∧
    (∀ (st : EmState) (t : String) (k : Nat),
      removeSubscription (removeSubscription st t k) t k = removeSubscription st t k) ∧
    (∀ (st : EmState) (t : String), st.buckets t = none → listeners st t = []) := by
  exact ⟨emit_unregistered, removeSubscription_unregistered, removeSubscription_idem,
    listeners_unregistered⟩

theorem C9_witness :
    emit initState "type9" ["x"] = (initState, none) ∧
    removeSubscription initState "type9" 3 = initState ∧
    removeSubscription (removeSubscription stL "type1" 0) "type1" 0 =
      removeSubscription stL "type1" 0 ∧
    listeners initState "type9" = [] :=
  ⟨C9_noop.1 initState "type9" ["x"] rfl, C9_noop.2.1 initState "type9" 3 rfl,
    C9_noop.2.2.1 stL "type1" 0, C9_noop.2.2.2 initState "type9" rfl⟩

end Emitter
